import Mathlib

/-!
Verification development for the Zurix privacy-relayer backend.

Amounts are modelled in SOL as exact rationals (the TypeScript source uses
JS numbers; we idealise them as exact arithmetic, with explicit decimal
rounding where the source calls toFixed).  Random draws from Math.random()
are modelled as streams of rationals in [0, 1).  Database tables are
modelled as association lists keyed by transaction id, and the wall clock
as a rational number of seconds.
-/

namespace Zurix

/-! ## Immutable constants (src/backend/src/config/constants.ts) -/

def RELAYER_FEE_PERCENTAGE : ℚ := 0.0005

def DEPOSIT_FEE_PERCENTAGE : ℚ := 0

def MIN_SWAP_AMOUNT : ℚ := 0.03

def MAX_SWAP_AMOUNT : Option ℚ := none

def MAX_MIXING_NOTES : ℕ := 8

def DEFAULT_MIXING_NOTES : ℕ := 6

def MIN_MIXING_NOTES : ℕ := 2

def MIXING_WINDOW_DURATION_MS : ℕ := 60000

def MIN_SPLIT_AMOUNT : ℚ := 0.01

def OBFUSCATION_RANGE : ℚ := 0.001

def EMERGENCY_RECOVERY_THRESHOLD : ℕ := 50

def RECOVERY_FALLBACK_BLOCKS : ℕ := 150

def TRANSACTION_FEE_RESERVE : ℚ := 0.0001

/-! ## Split plan (EnhancedPrivacyService.calculateSplits and the
note-count selection in executePrivateSwap, enhancedPrivacyService.ts) -/

/-- Model of `parseFloat(x.toFixed(9))` on a nonnegative amount: round to 9 decimal
places, ties away from zero (for the positive values that occur here this
is `round`, i.e. ties upward). -/
def round9 (x : ℚ) : ℚ := (round (x * 10 ^ 9) : ℚ) / 10 ^ 9

/-- The loop body of `calculateSplits`: `k` further loop iterations remain,
`i` is the index of the next Math.random() draw in the stream `sr`,
`remaining` is the running remainder.  Each iteration draws
`splitPercent = 0.15 + r * 0.2`, takes that share of the remainder,
raises it to `MIN_SPLIT_AMOUNT` if needed, pushes it rounded to 9
decimals, and subtracts the unrounded value.  The final push is the
rounded remainder. -/
def splitGo (sr : ℕ → ℚ) : ℕ → ℕ → ℚ → List ℚ
  | _, 0, remaining => [round9 remaining]
  | i, k + 1, remaining =>
    round9 (max (remaining * (0.15 + sr i * 0.2)) MIN_SPLIT_AMOUNT) ::
      splitGo sr (i + 1) k (remaining - max (remaining * (0.15 + sr i * 0.2)) MIN_SPLIT_AMOUNT)

/-- Swap positions `a` and `b` of a list, as the JS destructuring
assignment `[splits[i], splits[j]] = [splits[j], splits[i]]` does. -/
def swapL (l : List ℚ) (a b : ℕ) : List ℚ :=
  (l.set a (l.getD b 0)).set b (l.getD a 0)

/-- The Fisher-Yates loop of `calculateSplits`: the current index is
`i + 1` when the counter argument is `i + 1`, and `k` indexes the next
draw of the shuffle stream `shr`; `j = Math.floor(Math.random() * (i + 1))`
for current index `i`. -/
def fisherYatesGo (shr : ℕ → ℚ) : ℕ → List ℚ → ℕ → List ℚ
  | _, l, 0 => l
  | k, l, i + 1 =>
    fisherYatesGo shr (k + 1) (swapL l (i + 1) (Int.toNat ⌊shr k * ((i : ℚ) + 2)⌋)) i

/-- Shuffle of the split list (`for (let i = splits.length - 1; i > 0; i--)`). -/
def fisherYates (shr : ℕ → ℚ) (l : List ℚ) : List ℚ :=
  fisherYatesGo shr 0 l (l.length - 1)

/-- Model of `EnhancedPrivacyService.calculateSplits`.  `numSplits` falls back to
the amount-derived count when `targetNotes` is 0 (JS `targetNotes || ...`);
the call sites always pass a nonzero target.  The loop runs
`numSplits - 1` times and the remainder is pushed last, then the list is
shuffled. -/
def calculateSplits (amount : ℚ) (targetNotes : ℕ) (sr shr : ℕ → ℚ) : List ℚ :=
  fisherYates shr
    (splitGo sr 0
      ((if targetNotes = 0 then
          min (max MIN_MIXING_NOTES (Int.toNat ⌊amount / MIN_SPLIT_AMOUNT⌋)) MAX_MIXING_NOTES
        else targetNotes) - 1)
      amount)

/-- The note-count selection of `executePrivateSwap` (Step 2 of
enhancedPrivacyService.ts): bands on the amount. -/
def targetNotesFor (amount : ℚ) : ℕ :=
  if amount > 1 then min MAX_MIXING_NOTES (Int.toNat ⌊amount / 0.2⌋)
  else if amount > 0.5 then DEFAULT_MIXING_NOTES
  else if amount > 0.1 then min 4 DEFAULT_MIXING_NOTES
  else MIN_MIXING_NOTES

/-- The split plan of `executePrivateSwap`:
`shouldSplit = amount > MIN_SPLIT_AMOUNT * 2`; if false the plan is the
single note `[amount]`, otherwise `calculateSplits` with the band-selected
note count. -/
def splitPlan (amount : ℚ) (sr shr : ℕ → ℚ) : List ℚ :=
  if amount > MIN_SPLIT_AMOUNT * 2 then
    calculateSplits amount (targetNotesFor amount) sr shr
  else [amount]

/-! ## Association lists (the database tables and the simulated chain) -/

/-- Lookup in an association list. -/
def lookupA {κ α : Type} [DecidableEq κ] : List (κ × α) → κ → Option α
  | [], _ => none
  | (k', v) :: rest, k => if k' = k then some v else lookupA rest k

/-- Update (or insert) a key in an association list. -/
def updA {κ α : Type} [DecidableEq κ] : List (κ × α) → κ → α → List (κ × α)
  | [], k, v => [(k, v)]
  | (k', v') :: rest, k, v => if k' = k then (k, v) :: rest else (k', v') :: updA rest k v

/-! ## Wallet Vault (WalletService, src/backend/src/services — walletService.ts) -/

/-- The live chain as the Vault sees it over RPC: account balances in SOL
(a missing key is a nonexistent account) and the rent-exempt minimum for a
zero-data account (`connection.getMinimumBalanceForRentExemption(0)`),
in SOL. -/
structure Chain where
  accounts : List (String × ℚ)
  rentExemptionSOL : ℚ
deriving DecidableEq

/-- Model of `WalletService.getBalance`: live lookup, 0 for a missing account. -/
def Chain.balance (c : Chain) (pk : String) : ℚ := (lookupA c.accounts pk).getD 0

/-- Whether `connection.getAccountInfo` finds the account. -/
def Chain.accountExists (c : Chain) (pk : String) : Bool := (lookupA c.accounts pk).isSome

/-- Effect of a confirmed system transfer of `lam` SOL (already floored to
a whole number of lamports) from `src` to `dst`. -/
def Chain.applyTransfer (c : Chain) (src dst : String) (lam : ℚ) : Chain :=
  let afterDebit := updA c.accounts src (c.balance src - lam)
  { c with accounts := updA afterDebit dst (((lookupA afterDebit dst).getD 0) + lam) }

/-- Model of `WalletService.transferFromIntermediate` (walletService.ts).
`wallets` maps wallet ids to public keys (the keyManager lookup).  The
reserve is fee reserve plus rent exemption; the transfer amount is the
minimum of the requested amount and the callable amount; only a
nonpositive transfer amount (or a below-rent transfer to a nonexistent
destination) raises an error.  On success the result is the transfer
amount in SOL together with the updated chain; the submitted lamports are
`⌊transferAmount * 10^9⌋`. -/
def transferFromIntermediate (chain : Chain) (wallets : List (String × String))
    (walletId destination : String) (amount : ℚ) : Except String (ℚ × Chain) :=
  match lookupA wallets walletId with
  | none => .error "Wallet not found"
  | some pk =>
    let balance := chain.balance pk
    let minimumReserve := TRANSACTION_FEE_RESERVE + chain.rentExemptionSOL
    let availableAmount := max 0 (balance - minimumReserve)
    let transferAmount := min amount availableAmount
    if transferAmount ≤ 0 then
      .error "Insufficient balance for transfer"
    else if ¬ chain.accountExists destination ∧ transferAmount < chain.rentExemptionSOL then
      .error "Transfer amount is less than rent exemption requirement"
    else
      .ok (transferAmount,
        chain.applyTransfer pk destination ((⌊transferAmount * 10 ^ 9⌋ : ℚ) / 10 ^ 9))

/-! ## Registry and Recovery Ledger state
(swap_transactions, recovery_tracking, deposit_counter tables) -/

/-- A row of `swap_transactions`. -/
structure SwapRow where
  source_wallet : String
  destination_wallet : String
  amount_sol : ℚ
  intermediate_wallet_id : String
  source_tx_signature : String
  status : String
  relayer_fee : ℚ
  created_at : ℚ
  final_tx_signature : Option String := none
  completed_at : Option ℚ := none
  error_message : Option String := none
deriving DecidableEq

/-- A row of `recovery_tracking`. -/
structure RecoveryRow where
  deposit_count_at_creation : ℕ
  recovery_key_hash : String
  recovery_available : Bool := false
  last_checked_at : ℚ
deriving DecidableEq

/-- The durable store: swap rows and recovery rows keyed by transaction id
(modelled as the insertion counter `nextId`, standing for the UUID the
database generates), plus the singleton deposit counter. -/
structure Store where
  nextId : ℕ
  swaps : List (ℕ × SwapRow)
  recovery : List (ℕ × RecoveryRow)
  totalDeposits : ℕ
deriving DecidableEq

/-- Model of `RecoveryService.incrementDepositCounter`. -/
def incrementDepositCounter (st : Store) : Store :=
  { st with totalDeposits := st.totalDeposits + 1 }

/-- Model of `RecoveryService.getDepositCount`. -/
def getDepositCount (st : Store) : ℕ := st.totalDeposits

/-- Model of `RecoveryService.initializeRecovery` (recoveryService.ts): snapshot the
current deposit count; on conflict only the snapshot column is updated. -/
def initRecoveryTracking (now : ℚ) (st : Store) (txId : ℕ) (recoveryKeyHash : String) :
    Store :=
  match lookupA st.recovery txId with
  | some r =>
    let r2 : RecoveryRow := { r with deposit_count_at_creation := getDepositCount st }
    { st with recovery := updA st.recovery txId r2 }
  | none =>
    let r2 : RecoveryRow :=
      { deposit_count_at_creation := getDepositCount st,
        recovery_key_hash := recoveryKeyHash,
        recovery_available := false,
        last_checked_at := now }
    { st with recovery := updA st.recovery txId r2 }

/-- The `details` payload of an availability answer. -/
inductive AvDetails
  | thresholdHit (depositsSinceCreation : ℤ) (threshold : ℕ)
  | timeoutHit (ageSeconds : ℤ) (thresholdSeconds : ℚ) (estimatedBlocks : ℤ)
  | notAvailable (depositsSinceCreation : ℤ) (threshold : ℕ)
deriving DecidableEq

/-- Result shape of `checkRecoveryAvailability`. -/
structure Availability where
  available : Bool
  reason : String
  details : Option AvDetails
deriving DecidableEq

/-- Model of `RecoveryService.checkRecoveryAvailability` (recoveryService.ts).
Returns the answer together with the possibly updated store (the
`recovery_available` flag is set when a clause fires).  The threshold
clause does not consult the swap status; the timeout clause requires
status `pending`.  `now` and `created_at` are in seconds, so
`ageSeconds = ⌊now - created_at⌋` and the fallback is
`RECOVERY_FALLBACK_BLOCKS * 0.4` seconds. -/
def checkRecoveryAvailability (now : ℚ) (st : Store) (txId : ℕ) : Availability × Store :=
  match lookupA st.recovery txId with
  | none => ({ available := false, reason := "none", details := none }, st)
  | some recov =>
    let depositsSinceCreation : ℤ :=
      (getDepositCount st : ℤ) - recov.deposit_count_at_creation
    let flagged : Store :=
      let r2 : RecoveryRow := { recov with recovery_available := true, last_checked_at := now }
      { st with recovery := updA st.recovery txId r2 }
    if depositsSinceCreation ≥ (EMERGENCY_RECOVERY_THRESHOLD : ℤ) then
      ({ available := true, reason := "threshold",
         details := some (.thresholdHit depositsSinceCreation EMERGENCY_RECOVERY_THRESHOLD) },
       flagged)
    else
      let fallback :
          Availability × Store :=
        ({ available := false, reason := "none",
           details := some (.notAvailable depositsSinceCreation EMERGENCY_RECOVERY_THRESHOLD) },
         st)
      match lookupA st.swaps txId with
      | none => fallback
      | some tx =>
        if tx.status = "pending" then
          let ageSeconds : ℤ := ⌊now - tx.created_at⌋
          let fallbackSeconds : ℚ := (RECOVERY_FALLBACK_BLOCKS : ℚ) * 0.4
          if (ageSeconds : ℚ) ≥ fallbackSeconds then
            ({ available := true, reason := "timeout",
               details := some (.timeoutHit ageSeconds fallbackSeconds ⌊(ageSeconds : ℚ) / 0.4⌋) },
             flagged)
          else fallback
        else fallback

/-- Result shape of `executeRecovery`. -/
structure RecoveryResult where
  success : Bool
  txSignature : Option String := none
  error : Option String := none
deriving DecidableEq

/-- Model of `RecoveryService.executeRecovery` (recoveryService.ts).  `hashFn`
models the SHA-256 hex digest used for the recovery key (the digest
function itself is opaque to this development).  On a successful transfer
the swap row is overwritten to status `recovered` by an UPDATE matching
only on transaction id; error strings abbreviate the interpolated source
messages. -/
def executeRecovery (hashFn : String → String) (now : ℚ) (chain : Chain)
    (wallets : List (String × String)) (st : Store) (txId : ℕ)
    (recoveryKey destinationWallet : String) : RecoveryResult × Store × Chain :=
  let checked := checkRecoveryAvailability now st txId
  if ¬ checked.1.available then
    ({ success := false, error := some "Recovery not available" }, checked.2, chain)
  else
    match lookupA checked.2.recovery txId with
    | none => ({ success := false, error := some "Recovery record not found" }, checked.2, chain)
    | some recov =>
      if hashFn recoveryKey ≠ recov.recovery_key_hash then
        ({ success := false, error := some "Invalid recovery key" }, checked.2, chain)
      else
        match lookupA checked.2.swaps txId with
        | none => ({ success := false, error := some "Transaction not found" }, checked.2, chain)
        | some tx =>
          match transferFromIntermediate chain wallets tx.intermediate_wallet_id
              destinationWallet (tx.amount_sol - tx.relayer_fee) with
          | .error e => ({ success := false, error := some e }, checked.2, chain)
          | .ok (_, chain') =>
            let tx2 : SwapRow :=
              { tx with status := "recovered", final_tx_signature := some "sig",
                        completed_at := some now }
            ({ success := true, txSignature := some "sig" },
             { checked.2 with swaps := updA checked.2.swaps txId tx2 },
             chain')

/-- Model of `updateTransactionStatus` (enhancedPrivacyService.ts /
privacyService.ts): `UPDATE swap_transactions SET status = $1 WHERE
transaction_id = $2` — the match is on transaction id alone, with no
condition on the previous status. -/
def updateTransactionStatus (st : Store) (txId : ℕ) (status : String) : Store :=
  match lookupA st.swaps txId with
  | none => st
  | some tx => { st with swaps := updA st.swaps txId { tx with status := status } }

/-- Model of `EnhancedPrivacyService.createSwapTransaction`: insert a `pending` row
and return the generated transaction id. -/
def createSwapTransaction (now : ℚ) (st : Store) (sourceWallet destinationWallet : String)
    (amount : ℚ) (intermediateWalletId sourceTxSignature : String) (relayerFee : ℚ) :
    ℕ × Store :=
  (st.nextId,
   { st with
     nextId := st.nextId + 1,
     swaps := updA st.swaps st.nextId
       { source_wallet := sourceWallet,
         destination_wallet := destinationWallet,
         amount_sol := amount,
         intermediate_wallet_id := intermediateWalletId,
         source_tx_signature := sourceTxSignature,
         status := "pending",
         relayer_fee := relayerFee,
         created_at := now } })

/-- The store effects of a successful `SwapController.initiateSwap`
(controllers/swapController.ts) with a recovery key and no memo, after
validation and source-transaction verification pass: create the pending
row, initialize recovery tracking (snapshotting the deposit counter), and
only then increment the deposit counter. -/
def initiateSwap (hashFn : String → String) (now : ℚ) (st : Store)
    (sourceWallet destinationWallet : String) (amount : ℚ)
    (sourceTxSignature intermediateWalletId recoveryKey : String) : ℕ × Store :=
  let created := createSwapTransaction now st sourceWallet destinationWallet amount
    intermediateWalletId sourceTxSignature (amount * RELAYER_FEE_PERCENTAGE)
  (created.1,
   incrementDepositCounter
     (initRecoveryTracking now created.2 created.1 (hashFn recoveryKey)))

/-! ## Event trace of the Mixing Coordinator
(EnhancedPrivacyService.executePrivateSwap, enhancedPrivacyService.ts)

The coordinator is embedded as the sequence of externally visible events
of a successful run (all transfers succeed): confirmed on-chain transfers,
pushes onto the in-memory `steps` array, and durable database writes.
Wallets are numbered: 0 the user source, 1 the first intermediate, 2 the
destination, 3 the relayer-fee wallet, and freshly generated wallets from
4 upward in allocation order. -/

/-- Model of `EnhancedPrivacyService.obfuscateAmount`: additive jitter
`(r - 0.5) * 2 * OBFUSCATION_RANGE`, rounded to 9 decimals, floored at
0.0001 SOL. -/
def obfuscateAmount (amount : ℚ) (r : ℚ) : ℚ :=
  max 0.0001 (round9 (amount + (r - 0.5) * 2 * OBFUSCATION_RANGE))

/-- An externally visible event of the coordinator. -/
inductive Ev
  /-- a confirmed on-chain transfer (`amount` in SOL) -/
  | transfer (src dst : ℕ) (amount : ℚ)
  /-- a `steps.push(...)` onto the in-memory array, after confirmation -/
  | memStep (n : ℕ)
  /-- an `UPDATE swap_transactions SET status = ...` without a steps column -/
  | dbStatus (status : String)
  /-- the single `UPDATE ... SET status, steps = $1, final_tx_signature,
  completed_at` that persists the whole steps array -/
  | dbStepsWrite (status : String) (steps : ℕ)
  /-- mixing-window bookkeeping write -/
  | dbWindow
deriving DecidableEq

/-- Step 4 of `executePrivateSwap`: per note, fund the fresh deposit
wallet from the first intermediate, transfer the note value, push the
step, record the mixing-window deposit. -/
def depositEvents (minimumFunding : ℚ) (splits : List ℚ) : List Ev :=
  splits.enum.flatMap fun p =>
    [Ev.transfer 1 (4 + p.1) minimumFunding,
     Ev.transfer 1 (4 + p.1) p.2,
     Ev.memStep (2 + p.1),
     Ev.dbWindow]

/-- Step 6: per note, fund the fresh withdrawal wallet from the deposit
wallet, transfer the obfuscated value, push the step. -/
def withdrawEvents (minimumFunding : ℚ) (obr : ℕ → ℚ) (splits : List ℚ) : List Ev :=
  splits.enum.flatMap fun p =>
    [Ev.transfer (4 + p.1) (4 + splits.length + p.1) minimumFunding,
     Ev.transfer (4 + p.1) (4 + splits.length + p.1) (obfuscateAmount p.2 (obr p.1)),
     Ev.memStep (2 + splits.length + p.1)]

/-- The obfuscated per-note amounts held by the withdrawal wallets. -/
def withdrawAmts (obr : ℕ → ℚ) (splits : List ℚ) : List ℚ :=
  splits.enum.map fun p => obfuscateAmount p.2 (obr p.1)

/-- Step 7 (combine): when there are several withdrawal wallets, fund a
fresh combined wallet from the first, move withdrawals 1.. into it in
order, then move withdrawal 0. -/
def mergeEvents (minimumFunding : ℚ) (obr : ℕ → ℚ) (splits : List ℚ) : List Ev :=
  if splits.length > 1 then
    let n := splits.length
    let amts := withdrawAmts obr splits
    [Ev.transfer (4 + n) (4 + 2 * n) minimumFunding] ++
      ((List.range (n - 1)).flatMap fun i2 =>
        [Ev.transfer (4 + n + (i2 + 1)) (4 + 2 * n) (amts.getD (i2 + 1) 0),
         Ev.memStep (2 + 2 * n + (i2 + 1))]) ++
      [Ev.transfer (4 + n) (4 + 2 * n) (amts.getD 0 0),
       Ev.memStep (2 + 2 * n)]
  else []

/-- The wallet holding the combined funds entering the hop stage. -/
def mergedWallet (splits : List ℚ) : ℕ :=
  if splits.length > 1 then 4 + 2 * splits.length else 4 + splits.length

/-- Model of `finalHops = Math.random() > 0.5 ? 2 : 1`. -/
def finalHopsOf (hopR : ℚ) : ℕ := if hopR > 0.5 then 2 else 1

/-- The wallet holding the funds after `k` of the final hops. -/
def hopWallet (splits : List ℚ) (k : ℕ) : ℕ :=
  if k = 0 then mergedWallet splits else 4 + 2 * splits.length + k

/-- Step 7 (final routing hops): per hop, fund a fresh wallet from the
current one, transfer the full running amount, push the step. -/
def hopEvents (minimumFunding : ℚ) (obr : ℕ → ℚ) (hopR : ℚ) (splits : List ℚ) : List Ev :=
  (List.range (finalHopsOf hopR)).flatMap fun k =>
    [Ev.transfer (hopWallet splits k) (4 + 2 * splits.length + (k + 1)) minimumFunding,
     Ev.transfer (hopWallet splits k) (4 + 2 * splits.length + (k + 1))
       ((withdrawAmts obr splits).sum),
     Ev.memStep (2 + 3 * splits.length + k)]

/-- Step 8 and the closing bookkeeping: the final transfer to the
destination (two-recipient when a relayer-fee wallet is configured and the
fee is positive, one confirmed transaction either way), the last in-memory
push, the mixing-window withdrawal record, and the single durable write of
status `completed` together with the whole steps array.  The relayer fee
falls back to `currentAmount * RELAYER_FEE_PERCENTAGE` because the row
lookup uses the coordinator-generated id, which matches no row. -/
def finalEvents (obr : ℕ → ℚ) (hopR : ℚ) (feeWalletConfigured : Bool) (splits : List ℚ) :
    List Ev :=
  let currentAmount := (withdrawAmts obr splits).sum
  let relayerFee := currentAmount * RELAYER_FEE_PERCENTAGE
  let finalStepNumber := 2 + 3 * splits.length + finalHopsOf hopR
  [Ev.transfer (hopWallet splits (finalHopsOf hopR)) 2
     (if feeWalletConfigured ∧ relayerFee > 0 then currentAmount - relayerFee
      else currentAmount),
   Ev.memStep finalStepNumber,
   Ev.dbWindow,
   Ev.dbStepsWrite "completed" finalStepNumber]

/-- The full event trace of a successful `executePrivateSwap` run: the
initial status write (step 1 is pushed for the already confirmed user
deposit, with no new transfer), then deposits, withdrawals, combine, hops,
and the finalization. -/
def executePrivateSwapTrace (amount : ℚ) (sr shr obr : ℕ → ℚ) (hopR : ℚ)
    (minimumFunding : ℚ) (feeWalletConfigured : Bool) : List Ev :=
  let splits := splitPlan amount sr shr
  [Ev.dbStatus "processing", Ev.memStep 1] ++
    depositEvents minimumFunding splits ++
    withdrawEvents minimumFunding obr splits ++
    mergeEvents minimumFunding obr splits ++
    hopEvents minimumFunding obr hopR splits ++
    finalEvents obr hopR feeWalletConfigured splits

/-- Whether an event is a confirmed on-chain transfer. -/
def isTransferEv : Ev → Bool
  | .transfer _ _ _ => true
  | _ => false

/-- Whether an event durably appends step rows to the swap record. -/
def isDurableStepWrite : Ev → Bool
  | .dbStepsWrite _ _ => true
  | _ => false

/-- Scan checking the claim discipline: after every confirmed transfer a
durable step append occurs before the next transfer begins (and after the
last one).  `pending` records a transfer not yet followed by a durable
append. -/
def promptGo : Bool → List Ev → Bool
  | pending, [] => !pending
  | pending, e :: rest =>
    if isTransferEv e then !pending && promptGo true rest
    else if isDurableStepWrite e then promptGo false rest
    else promptGo pending rest

/-- The per-transfer durable-append discipline over a whole trace. -/
def promptPersist (tr : List Ev) : Bool := promptGo false tr

/-! ## Hashed configuration (getConfigHash, constants.ts) -/

/-- The thirteen constants the specification lists as covered by the
config hash. -/
structure ConfigConstants where
  relayerFeePct : ℚ
  depositFeePct : ℚ
  minSwap : ℚ
  maxSwap : Option ℚ
  maxNotes : ℕ
  defaultNotes : ℕ
  minNotes : ℕ
  mixingWindowMs : ℕ
  minSplit : ℚ
  obfuscationRange : ℚ
  recoveryThreshold : ℕ
  recoveryFallbackBlocks : ℕ
  feeReserve : ℚ
deriving DecidableEq

/-- The object literal that `getConfigHash` serializes with
`JSON.stringify` and feeds to SHA-256.  Field names follow the source;
the hex digest is a deterministic function of this value. -/
structure HashedConfig where
  relayerFee : ℚ
  depositFee : ℚ
  minSwap : ℚ
  maxSwap : Option ℚ
  maxNotes : ℕ
  defaultNotes : ℕ
  mixingWindow : ℕ
  minSplit : ℚ
  obfuscation : ℚ
  recoveryThreshold : ℕ
  recoveryFallback : ℕ
deriving DecidableEq

/-- The function `getConfigHash` (constants.ts) builds exactly this object: eleven of
the thirteen constants — `MIN_MIXING_NOTES` and `TRANSACTION_FEE_RESERVE`
do not appear. -/
def configForHash (c : ConfigConstants) : HashedConfig :=
  { relayerFee := c.relayerFeePct,
    depositFee := c.depositFeePct,
    minSwap := c.minSwap,
    maxSwap := c.maxSwap,
    maxNotes := c.maxNotes,
    defaultNotes := c.defaultNotes,
    mixingWindow := c.mixingWindowMs,
    minSplit := c.minSplit,
    obfuscation := c.obfuscationRange,
    recoveryThreshold := c.recoveryThreshold,
    recoveryFallback := c.recoveryFallbackBlocks }

/-- The deployed constant values (constants.ts). -/
def zurixConstants : ConfigConstants :=
  { relayerFeePct := RELAYER_FEE_PERCENTAGE,
    depositFeePct := DEPOSIT_FEE_PERCENTAGE,
    minSwap := MIN_SWAP_AMOUNT,
    maxSwap := MAX_SWAP_AMOUNT,
    maxNotes := MAX_MIXING_NOTES,
    defaultNotes := DEFAULT_MIXING_NOTES,
    minNotes := MIN_MIXING_NOTES,
    mixingWindowMs := MIXING_WINDOW_DURATION_MS,
    minSplit := MIN_SPLIT_AMOUNT,
    obfuscationRange := OBFUSCATION_RANGE,
    recoveryThreshold := EMERGENCY_RECOVERY_THRESHOLD,
    recoveryFallbackBlocks := RECOVERY_FALLBACK_BLOCKS,
    feeReserve := TRANSACTION_FEE_RESERVE }

/-! ## Helper lemmas -/

lemma lookupA_updA_self {κ α : Type} [DecidableEq κ] (l : List (κ × α)) (k : κ) (v : α) :
    lookupA (updA l k v) k = some v := by
  induction l with
  | nil => simp [updA, lookupA]
  | cons p rest ih =>
    by_cases h : p.1 = k <;> simp [updA, lookupA, h, ih]

lemma lookupA_updA_ne {κ α : Type} [DecidableEq κ] (l : List (κ × α)) {k k' : κ} (v : α)
    (h : k' ≠ k) : lookupA (updA l k v) k' = lookupA l k' := by
  have hne : ¬ k = k' := fun hh => h hh.symm
  induction l with
  | nil => simp [updA, lookupA, hne]
  | cons p rest ih =>
    rcases p with ⟨pk, pv⟩
    by_cases hp : pk = k
    · subst hp
      simp only [updA, if_pos rfl, lookupA, if_neg hne]
    · simp only [updA, if_neg hp, lookupA, ih]

/-- The sender balance after a transfer: unchanged for a self-transfer,
otherwise debited by the submitted amount. -/
lemma balance_applyTransfer_src (c : Chain) (src dst : String) (lam : ℚ) :
    (c.applyTransfer src dst lam).balance src =
      if dst = src then c.balance src else c.balance src - lam := by
  unfold Chain.applyTransfer Chain.balance
  by_cases hd : dst = src
  · subst hd
    simp [lookupA_updA_self]
  · rw [if_neg hd, lookupA_updA_ne _ _ (fun h => hd h.symm), lookupA_updA_self]
    rfl

/-- A stream of admissible `Math.random()` outputs. -/
def validDraws (f : ℕ → ℚ) : Prop := ∀ n, 0 ≤ f n ∧ f n < 1

/-- The constant draw stream 1/2. -/
def halfDraws : ℕ → ℚ := fun _ => 1 / 2

/-- The constant draw stream 0. -/
def zeroDraws : ℕ → ℚ := fun _ => 0

/-- The constant stream 1/2 is admissible. -/
lemma validDraws_half : validDraws halfDraws := fun _ => by norm_num [halfDraws]

/-- The constant stream 0 is admissible. -/
lemma validDraws_zero : validDraws zeroDraws := fun _ => by norm_num [zeroDraws]

/-! ## Claim C10 -/

/-- C10: for a transaction id with no recovery-tracking record,
`checkRecoveryAvailability` answers `available = false`, `reason = none`,
`details = null`, without error and without touching the store. -/
theorem checkRecoveryAvailability_missing_record (now : ℚ) (st : Store) (txId : ℕ)
    (h : lookupA st.recovery txId = none) :
    checkRecoveryAvailability now st txId =
      ({ available := false, reason := "none", details := none }, st) := by
  unfold checkRecoveryAvailability
  rw [h]

/-- Witness for C10: the empty store has no record for id 7. -/
theorem checkRecoveryAvailability_missing_record_witness :
    checkRecoveryAvailability 0 { nextId := 0, swaps := [], recovery := [], totalDeposits := 0 } 7 =
      ({ available := false, reason := "none", details := none },
       { nextId := 0, swaps := [], recovery := [], totalDeposits := 0 }) :=
  checkRecoveryAvailability_missing_record 0 _ 7 rfl

/-! ## Claim C5 -/

/-- C5 counterexample: a swap stored as `completed` is overwritten to
`processing` by `updateTransactionStatus` with no error and no condition
on the previous status, contradicting the claim that every status write is
conditional on the expected previous status. -/
theorem updateTransactionStatus_overwrites_completed :
    ((lookupA
        { nextId := 1,
          swaps := [(0, { source_wallet := "s", destination_wallet := "d", amount_sol := 1,
                          intermediate_wallet_id := "w", source_tx_signature := "g",
                          status := "completed", relayer_fee := 0, created_at := 0 })],
          recovery := [], totalDeposits := 0 : Store}.swaps 0).map SwapRow.status =
        some "completed") ∧
    ((lookupA (updateTransactionStatus
        { nextId := 1,
          swaps := [(0, { source_wallet := "s", destination_wallet := "d", amount_sol := 1,
                          intermediate_wallet_id := "w", source_tx_signature := "g",
                          status := "completed", relayer_fee := 0, created_at := 0 })],
          recovery := [], totalDeposits := 0 } 0 "processing").swaps 0).map SwapRow.status =
        some "processing") := by
  decide

/-- C5 amended: status writes match on transaction id alone and overwrite
whatever status is stored; for any stored row and any target status the
update succeeds and installs the new status, with no conditional check and
no StatusConflict error path. -/
theorem updateTransactionStatus_unconditional (st : Store) (txId : ℕ) (tx : SwapRow)
    (status : String) (h : lookupA st.swaps txId = some tx) :
    (updateTransactionStatus st txId status).swaps = updA st.swaps txId { tx with status := status } ∧
    lookupA (updateTransactionStatus st txId status).swaps txId = some { tx with status := status } := by
  unfold updateTransactionStatus
  rw [h]
  exact ⟨rfl, lookupA_updA_self _ _ _⟩

/-- A concrete completed swap row, input of the C5 witness. -/
def c5Row : SwapRow :=
  { source_wallet := "s2", destination_wallet := "d2", amount_sol := 2,
    intermediate_wallet_id := "w2", source_tx_signature := "g2",
    status := "completed", relayer_fee := 0, created_at := 0 }

/-- A concrete store holding `c5Row`, input of the C5 witness. -/
def c5Store : Store :=
  { nextId := 1, swaps := [(0, c5Row)], recovery := [], totalDeposits := 3 }

/-- Witness for C5: a concrete store with a completed row accepts an
arbitrary overwrite. -/
theorem updateTransactionStatus_unconditional_witness :
    (updateTransactionStatus c5Store 0 "failed").swaps =
      updA c5Store.swaps 0 { c5Row with status := "failed" } ∧
    lookupA (updateTransactionStatus c5Store 0 "failed").swaps 0 =
      some { c5Row with status := "failed" } :=
  updateTransactionStatus_unconditional c5Store 0 c5Row "failed" rfl

/-! ## Claim C8 -/

/-- C8 counterexample: the object hashed by `getConfigHash` is unchanged
when `MIN_MIXING_NOTES` and `TRANSACTION_FEE_RESERVE` change, so the hash
(a deterministic function of this object) does not change with every
listed constant, contradicting the claimed "changes iff". -/
theorem configForHash_ignores_minNotes_and_feeReserve :
    configForHash zurixConstants =
      configForHash { zurixConstants with minNotes := 3, feeReserve := 1 } ∧
    zurixConstants.minNotes ≠ 3 ∧ zurixConstants.feeReserve ≠ 1 := by
  refine ⟨rfl, by decide, ?_⟩
  show TRANSACTION_FEE_RESERVE ≠ 1
  unfold TRANSACTION_FEE_RESERVE
  norm_num

/-- C8 amended: the hashed object is a pure function of exactly the eleven
constants that appear in it (all of the constants listed except
`MIN_MIXING_NOTES` and `TRANSACTION_FEE_RESERVE`), and it changes iff one
of those eleven changes; the SHA-256 hex digest is a deterministic
function of this object. -/
theorem configForHash_eq_iff (c c' : ConfigConstants) :
    configForHash c = configForHash c' ↔
      (c.relayerFeePct = c'.relayerFeePct ∧ c.depositFeePct = c'.depositFeePct ∧
       c.minSwap = c'.minSwap ∧ c.maxSwap = c'.maxSwap ∧ c.maxNotes = c'.maxNotes ∧
       c.defaultNotes = c'.defaultNotes ∧ c.mixingWindowMs = c'.mixingWindowMs ∧
       c.minSplit = c'.minSplit ∧ c.obfuscationRange = c'.obfuscationRange ∧
       c.recoveryThreshold = c'.recoveryThreshold ∧
       c.recoveryFallbackBlocks = c'.recoveryFallbackBlocks) := by
  simp [configForHash, HashedConfig.mk.injEq]

/-! ## Claim C2 -/

/-- C2 counterexample: with balance 0.5 SOL and a requested 1 SOL (more
than the callable amount), `transferFromIntermediate` succeeds — capping
the transfer — instead of failing with InsufficientFunds as claimed. -/
theorem transferFromIntermediate_caps_excess_request :
    (transferFromIntermediate
        { accounts := [("pk1", 0.5), ("d", 1)], rentExemptionSOL := 0.00089088 }
        [("w1", "pk1")] "w1" "d" 1).isOk = true ∧
    (1 : ℚ) > max 0 ((0.5 : ℚ) -
      (TRANSACTION_FEE_RESERVE +
        (Chain.rentExemptionSOL
          { accounts := [("pk1", 0.5), ("d", 1)], rentExemptionSOL := 0.00089088 }))) := by
  constructor
  · norm_num [transferFromIntermediate, lookupA, Chain.balance, Chain.accountExists,
      TRANSACTION_FEE_RESERVE, max_def, min_def, Except.isOk, Except.toBool]
  · norm_num [TRANSACTION_FEE_RESERVE, max_def]

/-- C2 amended: the single-recipient transfer fails only when the capped
transfer amount `min(requested, max(0, balance - reserve))` is
nonpositive — that is, when the callable amount is zero (or the request
nonpositive) — or when the destination account does not exist and the
capped amount is below rent exemption; a request exceeding a positive
callable amount is capped and submitted, not rejected. -/
theorem transferFromIntermediate_error_iff (chain : Chain)
    (wallets : List (String × String)) (walletId destination : String) (amount : ℚ)
    (pk : String) (hpk : lookupA wallets walletId = some pk) :
    (transferFromIntermediate chain wallets walletId destination amount).isOk = false ↔
      (min amount (max 0 (chain.balance pk -
          (TRANSACTION_FEE_RESERVE + chain.rentExemptionSOL))) ≤ 0 ∨
       (chain.accountExists destination = false ∧
        min amount (max 0 (chain.balance pk -
          (TRANSACTION_FEE_RESERVE + chain.rentExemptionSOL))) < chain.rentExemptionSOL)) := by
  unfold transferFromIntermediate
  rw [hpk]
  dsimp only
  split_ifs with h1 h2
  · exact iff_of_true rfl (Or.inl h1)
  · exact iff_of_true rfl (Or.inr ⟨Bool.eq_false_iff.mpr h2.1, h2.2⟩)
  · refine iff_of_false (by simp [Except.isOk, Except.toBool]) ?_
    push_neg at h2
    intro hc
    rcases hc with hc | ⟨hc1, hc2⟩
    · exact h1 hc
    · exact absurd hc2 (not_lt.mpr (h2 (by simp [hc1])))

/-- Witness for C2: on a concrete chain the failure characterization is
available (here the transfer succeeds, matching a false left-hand side). -/
theorem transferFromIntermediate_error_iff_witness :
    (transferFromIntermediate
        { accounts := [("pk2", 0.2), ("d2", 1)], rentExemptionSOL := 0.001 }
        [("w2", "pk2")] "w2" "d2" 0.05).isOk = false ↔
      (min (0.05 : ℚ) (max 0 ((Chain.balance
          { accounts := [("pk2", 0.2), ("d2", 1)], rentExemptionSOL := 0.001 } "pk2") -
          (TRANSACTION_FEE_RESERVE + 0.001))) ≤ 0 ∨
       ((Chain.accountExists
          { accounts := [("pk2", 0.2), ("d2", 1)], rentExemptionSOL := 0.001 } "d2") = false ∧
        min (0.05 : ℚ) (max 0 ((Chain.balance
          { accounts := [("pk2", 0.2), ("d2", 1)], rentExemptionSOL := 0.001 } "pk2") -
          (TRANSACTION_FEE_RESERVE + 0.001))) < 0.001)) :=
  transferFromIntermediate_error_iff _ [("w2", "pk2")] "w2" "d2" 0.05 "pk2" rfl

/-! ## Claim C9 -/

/-- C9: every successful single-recipient transfer submits exactly
`min(requested, balance - reserve)` SOL (as `⌊amt * 10^9⌋` lamports): the
amount never exceeds the request, a request above the callable balance is
silently reduced to it, and the sending wallet retains at least the
fee-plus-rent reserve. -/
theorem transferFromIntermediate_success_amount (chain : Chain)
    (wallets : List (String × String)) (walletId destination : String)
    (amount amt : ℚ) (chain' : Chain) (pk : String)
    (hpk : lookupA wallets walletId = some pk)
    (h : transferFromIntermediate chain wallets walletId destination amount =
      .ok (amt, chain')) :
    amt = min amount (chain.balance pk - (TRANSACTION_FEE_RESERVE + chain.rentExemptionSOL)) ∧
    amt ≤ amount ∧
    (amount > max 0 (chain.balance pk - (TRANSACTION_FEE_RESERVE + chain.rentExemptionSOL)) →
      amt = max 0 (chain.balance pk - (TRANSACTION_FEE_RESERVE + chain.rentExemptionSOL))) ∧
    chain'.balance pk ≥ TRANSACTION_FEE_RESERVE + chain.rentExemptionSOL := by
  unfold transferFromIntermediate at h
  rw [hpk] at h
  dsimp only at h
  split_ifs at h with h1 h2
  rw [Except.ok.injEq, Prod.mk.injEq] at h
  obtain ⟨hamt, hchain⟩ := h
  push_neg at h1
  set X := chain.balance pk - (TRANSACTION_FEE_RESERVE + chain.rentExemptionSOL) with hX
  have hmaxpos : 0 < max 0 X := lt_of_lt_of_le h1 (min_le_right _ _)
  have hXpos : 0 < X := by
    rcases max_choice 0 X with hm | hm
    · rw [hm] at hmaxpos; exact absurd hmaxpos (lt_irrefl 0)
    · rwa [hm] at hmaxpos
  have hmaxX : max 0 X = X := max_eq_right (le_of_lt hXpos)
  have hamt' : amt = min amount X := by rw [← hamt, hmaxX]
  refine ⟨hamt', by rw [hamt']; exact min_le_left _ _, ?_, ?_⟩
  · intro hgt
    rw [hamt', hmaxX]
    exact min_eq_right (le_of_lt (hmaxX ▸ hgt))
  · have hlam : (⌊(min amount (max 0 X)) * 10 ^ 9⌋ : ℚ) / 10 ^ 9 ≤ min amount (max 0 X) := by
      rw [div_le_iff₀ (by norm_num)]
      exact Int.floor_le _
    have hminX : min amount (max 0 X) ≤ X := by rw [hmaxX]; exact min_le_right _ _
    rw [← hchain, balance_applyTransfer_src]
    split_ifs with hdst
    · linarith [hXpos, hX]
    · have hle : (⌊(min amount (max 0 X)) * 10 ^ 9⌋ : ℚ) / 10 ^ 9 ≤ X := le_trans hlam hminX
      simp only [hX] at hle
      linarith

/-- The concrete chain of the C9 witness. -/
def c9Chain : Chain := { accounts := [("pk1", 0.5), ("d", 1)], rentExemptionSOL := 0.001 }

/-- The chain after the C9 witness transfer of 0.1 SOL. -/
def c9After : Chain := { accounts := [("pk1", 0.4), ("d", 1.1)], rentExemptionSOL := 0.001 }

/-- Witness for C9: a concrete successful transfer of 0.1 SOL out of a
0.5 SOL balance. -/
theorem transferFromIntermediate_success_amount_witness :
    (0.1 : ℚ) = min 0.1 (c9Chain.balance "pk1" -
      (TRANSACTION_FEE_RESERVE + c9Chain.rentExemptionSOL)) ∧
    (0.1 : ℚ) ≤ 0.1 ∧
    ((0.1 : ℚ) > max 0 (c9Chain.balance "pk1" -
        (TRANSACTION_FEE_RESERVE + c9Chain.rentExemptionSOL)) →
      (0.1 : ℚ) = max 0 (c9Chain.balance "pk1" -
        (TRANSACTION_FEE_RESERVE + c9Chain.rentExemptionSOL))) ∧
    c9After.balance "pk1" ≥ TRANSACTION_FEE_RESERVE + c9Chain.rentExemptionSOL :=
  transferFromIntermediate_success_amount c9Chain [("w1", "pk1")] "w1" "d" 0.1 0.1 c9After
    "pk1" rfl (by
      norm_num [transferFromIntermediate, lookupA, Chain.balance, Chain.accountExists,
        Chain.applyTransfer, updA, TRANSACTION_FEE_RESERVE, c9Chain, c9After,
        max_def, min_def, Int.floor_eq_iff]
      all_goals simp
      all_goals norm_num)

/-! ## Claim C4 -/

/-- One further successful initiate by another user (controller pipeline:
create row, snapshot recovery, then increment the counter). -/
def c4InitStep (st : Store) : Store :=
  (initiateSwap (fun s => s) 0 st "src" "dst" 0.03 "sg" "w" "rk").2

/-- Swap S: the first initiate against an empty store. -/
def c4Start : ℕ × Store :=
  initiateSwap (fun s => s) 0 { nextId := 0, swaps := [], recovery := [], totalDeposits := 0 }
    "srcS" "dstS" 0.03 "sgS" "wS" "rkS"

/-- C4, evaluated at the failing input: after only 49 further initiates,
recovery for S is already reported available with reason `threshold`,
because the counter increment of S itself happens after its snapshot and therefore
counts toward its own threshold; the claim (and the own documentation of the code, "deposits
by other users" documentation) requires a 50th further deposit. -/
theorem recovery_threshold_hit_after_49_further_initiates :
    (checkRecoveryAvailability 10 (c4InitStep^[49] c4Start.2) c4Start.1).1 =
      { available := true, reason := "threshold",
        details := some (.thresholdHit 50 EMERGENCY_RECOVERY_THRESHOLD) } := by
  decide

/-! ## Claim C1 -/

/-- Chain state for the C1 counterexample: the first intermediate still
holds the funds. -/
def c1Chain : Chain :=
  { accounts := [("pk1", 0.1005), ("ud", 1)], rentExemptionSOL := 0.00089088 }

/-- A swap row already admitted by the monitor: status `processing`. -/
def c1Row : SwapRow :=
  { source_wallet := "us", destination_wallet := "ud0", amount_sol := 0.1,
    intermediate_wallet_id := "w1", source_tx_signature := "s0",
    status := "processing", relayer_fee := 0.00005, created_at := 0 }

/-- Store for the C1 counterexample: the deposit threshold has been
reached (50 deposits since the snapshot). -/
def c1Store : Store :=
  { nextId := 1, swaps := [(0, c1Row)],
    recovery := [(0, { deposit_count_at_creation := 0, recovery_key_hash := "k",
                       recovery_available := false, last_checked_at := 0 })],
    totalDeposits := 50 }

/-- C1 counterexample: for a swap in status `processing` whose deposit
threshold is reached, `executeRecovery` authorizes the transfer and
overwrites the status to `recovered` — the transition
`processing → recovered` is reachable, because only the timeout clause
checks for status `pending`. -/
theorem executeRecovery_recovers_processing_swap :
    c1Row.status = "processing" ∧
    (executeRecovery (fun s => s) 100 c1Chain [("w1", "pk1")] c1Store 0 "k" "ud").1.success =
      true ∧
    (lookupA (executeRecovery (fun s => s) 100 c1Chain [("w1", "pk1")]
        c1Store 0 "k" "ud").2.1.swaps 0).map SwapRow.status = some "recovered" := by
  refine ⟨rfl, ?_, ?_⟩ <;>
  · norm_num [executeRecovery, checkRecoveryAvailability, transferFromIntermediate,
      lookupA, updA, Chain.balance, Chain.accountExists, Chain.applyTransfer, getDepositCount,
      c1Chain, c1Row, c1Store, EMERGENCY_RECOVERY_THRESHOLD, TRANSACTION_FEE_RESERVE,
      max_def, min_def, Int.floor_eq_iff]

/-- When neither the threshold (ignoring status) nor the pending-gated
timeout clause can fire, availability is denied and the store is
untouched. -/
lemma checkRecoveryAvailability_unavailable (now : ℚ) (st : Store) (txId : ℕ)
    (hstatus : ∀ tx, lookupA st.swaps txId = some tx → tx.status ≠ "pending")
    (hthr : ∀ r, lookupA st.recovery txId = some r →
      (st.totalDeposits : ℤ) - r.deposit_count_at_creation < EMERGENCY_RECOVERY_THRESHOLD) :
    (checkRecoveryAvailability now st txId).1.available = false ∧
    (checkRecoveryAvailability now st txId).2 = st := by
  unfold checkRecoveryAvailability
  cases hrec : lookupA st.recovery txId with
  | none => exact ⟨rfl, rfl⟩
  | some r =>
    dsimp only [getDepositCount]
    rw [if_neg (show ¬((st.totalDeposits : ℤ) - (r.deposit_count_at_creation : ℤ) ≥
        (EMERGENCY_RECOVERY_THRESHOLD : ℤ)) from not_le.mpr (hthr r hrec))]
    cases hsw : lookupA st.swaps txId with
    | none => exact ⟨rfl, rfl⟩
    | some tx =>
      dsimp only
      rw [if_neg (hstatus tx hsw)]
      exact ⟨rfl, rfl⟩

/-- C1 amended: for a swap whose status is not `pending`, `executeRecovery`
neither authorizes a transfer nor changes any state **provided the
deposit-count threshold has not been reached**; the threshold clause
itself ignores the status (see the counterexample), so status gating
exists only in the timeout clause. -/
theorem executeRecovery_noop_when_not_pending_and_threshold_unmet
    (hashFn : String → String) (now : ℚ) (chain : Chain)
    (wallets : List (String × String)) (st : Store) (txId : ℕ)
    (recoveryKey destinationWallet : String)
    (hstatus : ∀ tx, lookupA st.swaps txId = some tx → tx.status ≠ "pending")
    (hthr : ∀ r, lookupA st.recovery txId = some r →
      (st.totalDeposits : ℤ) - r.deposit_count_at_creation < EMERGENCY_RECOVERY_THRESHOLD) :
    executeRecovery hashFn now chain wallets st txId recoveryKey destinationWallet =
      ({ success := false, error := some "Recovery not available" }, st, chain) := by
  obtain ⟨h1, h2⟩ := checkRecoveryAvailability_unavailable now st txId hstatus hthr
  have hcond : ¬ ((checkRecoveryAvailability now st txId).1.available = true) := by
    rw [h1]
    simp
  unfold executeRecovery
  dsimp only
  rw [if_pos hcond, h2]

/-- A completed swap row, input of the C1 witness. -/
def c1bRow : SwapRow :=
  { source_wallet := "us", destination_wallet := "ud0", amount_sol := 0.1,
    intermediate_wallet_id := "w1", source_tx_signature := "s0",
    status := "completed", relayer_fee := 0.00005, created_at := 0 }

/-- Recovery row of the C1 witness. -/
def c1bRec : RecoveryRow :=
  { deposit_count_at_creation := 0, recovery_key_hash := "k",
    recovery_available := false, last_checked_at := 0 }

/-- Store of the C1 witness: 10 deposits since snapshot, below threshold. -/
def c1bStore : Store :=
  { nextId := 1, swaps := [(0, c1bRow)], recovery := [(0, c1bRec)], totalDeposits := 10 }

/-- Witness for the amended C1: a completed swap below the threshold is
left untouched. -/
theorem executeRecovery_noop_witness :
    executeRecovery (fun s => s) 5 c1Chain [("w1", "pk1")] c1bStore 0 "k" "ud" =
      ({ success := false, error := some "Recovery not available" }, c1bStore, c1Chain) :=
  executeRecovery_noop_when_not_pending_and_threshold_unmet (fun s => s) 5 c1Chain
    [("w1", "pk1")] c1bStore 0 "k" "ud"
    (fun tx h => by
      have h' : some c1bRow = some tx := h
      injection h' with h2
      rw [← h2]
      decide)
    (fun r h => by
      have h' : some c1bRec = some r := h
      injection h' with h2
      rw [← h2]
      decide)

/-! ## Split-plan lemmas -/

lemma splitGo_length (sr : ℕ → ℚ) (k : ℕ) : ∀ (i : ℕ) (r : ℚ),
    (splitGo sr i k r).length = k + 1 := by
  induction k with
  | zero => intro i r; rfl
  | succ k ih => intro i r; simp [splitGo, ih]

lemma swapL_length (l : List ℚ) (a b : ℕ) : (swapL l a b).length = l.length := by
  simp [swapL]

lemma fisherYatesGo_length (shr : ℕ → ℚ) (i : ℕ) : ∀ (k : ℕ) (l : List ℚ),
    (fisherYatesGo shr k l i).length = l.length := by
  induction i with
  | zero => intro k l; rfl
  | succ i ih => intro k l; rw [fisherYatesGo, ih, swapL_length]

lemma fisherYates_length (shr : ℕ → ℚ) (l : List ℚ) :
    (fisherYates shr l).length = l.length :=
  fisherYatesGo_length shr (l.length - 1) 0 l

lemma calculateSplits_length (amount : ℚ) (t : ℕ) (sr shr : ℕ → ℚ) (ht : t ≠ 0) :
    (calculateSplits amount t sr shr).length = t := by
  unfold calculateSplits
  rw [fisherYates_length, splitGo_length, if_neg ht]
  omega

lemma getD_mem_of_lt (l : List ℚ) (n : ℕ) (h : n < l.length) : l.getD n 0 ∈ l := by
  rw [List.getD_eq_getElem l 0 h]
  exact List.getElem_mem h

lemma mem_swapL {v : ℚ} (l : List ℚ) (a b : ℕ) (ha : a < l.length) (hb : b < l.length)
    (h : v ∈ swapL l a b) : v ∈ l := by
  unfold swapL at h
  rcases List.mem_or_eq_of_mem_set h with h1 | h1
  · rcases List.mem_or_eq_of_mem_set h1 with h2 | h2
    · exact h2
    · exact h2 ▸ getD_mem_of_lt l b hb
  · exact h1 ▸ getD_mem_of_lt l a ha

/-- With admissible draws, `j = ⌊r * (i + 2)⌋` is a valid index below
`i + 2`. -/
lemma toNat_floor_draw_le (r : ℚ) (i : ℕ) (_h0 : 0 ≤ r) (h1 : r < 1) :
    Int.toNat ⌊r * ((i : ℚ) + 2)⌋ ≤ i + 1 := by
  have hfl : ⌊r * ((i : ℚ) + 2)⌋ < (i : ℤ) + 2 := by
    rw [Int.floor_lt]
    push_cast
    nlinarith
  omega

lemma mem_fisherYatesGo (shr : ℕ → ℚ) (hshr : validDraws shr) {v : ℚ} (i : ℕ) :
    ∀ (k : ℕ) (l : List ℚ), i < l.length → v ∈ fisherYatesGo shr k l i → v ∈ l := by
  induction i with
  | zero => intro k l _ h; exact h
  | succ i ih =>
    intro k l hi h
    rw [fisherYatesGo] at h
    have hj : Int.toNat ⌊shr k * ((i : ℚ) + 2)⌋ < l.length :=
      lt_of_le_of_lt (toNat_floor_draw_le (shr k) i (hshr k).1 (hshr k).2) hi
    refine mem_swapL l (i + 1) _ hi hj (ih (k + 1) _ ?_ h)
    rw [swapL_length]
    exact lt_trans (Nat.lt_succ_self i) hi

lemma mem_fisherYates (shr : ℕ → ℚ) (hshr : validDraws shr) {v : ℚ} (l : List ℚ)
    (h : v ∈ fisherYates shr l) : v ∈ l := by
  unfold fisherYates at h
  rcases l with _ | ⟨x, xs⟩
  · exact h
  · exact mem_fisherYatesGo shr hshr _ 0 (x :: xs) (by simp) h

lemma sum_set (l : List ℚ) : ∀ (n : ℕ), n < l.length → ∀ x : ℚ,
    (l.set n x).sum = l.sum - l.getD n 0 + x := by
  induction l with
  | nil => intro n h; simp at h
  | cons a as ih =>
    intro n h x
    cases n with
    | zero => simp [List.set]; ring
    | succ n =>
      simp only [List.set, List.sum_cons, List.getD_cons_succ]
      rw [ih n (by simpa using h) x]
      ring

lemma sum_swapL (l : List ℚ) (a b : ℕ) (ha : a < l.length) (hb : b < l.length) :
    (swapL l a b).sum = l.sum := by
  unfold swapL
  have hb' : b < (l.set a (l.getD b 0)).length := by simpa using hb
  have hgd : (l.set a (l.getD b 0)).getD b 0 = l.getD b 0 := by
    by_cases hab : a = b
    · subst hab
      rw [List.getD_eq_getElem?_getD, List.getElem?_set_self ha]
      rfl
    · rw [List.getD_eq_getElem?_getD, List.getElem?_set_ne hab, ← List.getD_eq_getElem?_getD]
  rw [sum_set _ b hb', sum_set l a ha, hgd]
  ring

lemma fisherYatesGo_sum (shr : ℕ → ℚ) (hshr : validDraws shr) (i : ℕ) :
    ∀ (k : ℕ) (l : List ℚ), i < l.length → (fisherYatesGo shr k l i).sum = l.sum := by
  induction i with
  | zero => intro k l _; rfl
  | succ i ih =>
    intro k l hi
    rw [fisherYatesGo]
    have hj : Int.toNat ⌊shr k * ((i : ℚ) + 2)⌋ < l.length :=
      lt_of_le_of_lt (toNat_floor_draw_le (shr k) i (hshr k).1 (hshr k).2) hi
    rw [ih (k + 1) _ (by rw [swapL_length]; exact lt_trans (Nat.lt_succ_self i) hi),
      sum_swapL l (i + 1) _ hi hj]

lemma fisherYates_sum (shr : ℕ → ℚ) (hshr : validDraws shr) (l : List ℚ) :
    (fisherYates shr l).sum = l.sum := by
  unfold fisherYates
  rcases l with _ | ⟨x, xs⟩
  · rfl
  · exact fisherYatesGo_sum shr hshr _ 0 (x :: xs) (by simp)

/-- Rounding to 9 decimals moves a value by at most half a lamport. -/
lemma abs_round9_sub (x : ℚ) : |round9 x - x| ≤ 1 / (2 * 10 ^ 9) := by
  unfold round9
  have key : |(round (x * 10 ^ 9) : ℚ) - x * 10 ^ 9| ≤ 1 / 2 := by
    rw [abs_sub_comm]
    exact abs_sub_round (x * 10 ^ 9)
  rw [show (round (x * 10 ^ 9) : ℚ) / 10 ^ 9 - x =
    ((round (x * 10 ^ 9) : ℚ) - x * 10 ^ 9) / 10 ^ 9 by ring]
  rw [abs_div, show |(10 : ℚ) ^ 9| = 10 ^ 9 by norm_num,
    div_le_iff₀ (by norm_num : (0 : ℚ) < 10 ^ 9),
    show (1 : ℚ) / (2 * 10 ^ 9) * 10 ^ 9 = 1 / 2 by norm_num]
  exact key

/-- Monotonicity of `round9`. -/
lemma round9_mono {x y : ℚ} (h : x ≤ y) : round9 x ≤ round9 y := by
  unfold round9
  have hr : round (x * 10 ^ 9) ≤ round (y * 10 ^ 9) := by
    rw [round_eq, round_eq]
    exact Int.floor_le_floor (by linarith)
  have hc : ((round (x * 10 ^ 9) : ℤ) : ℚ) ≤ ((round (y * 10 ^ 9) : ℤ) : ℚ) :=
    Int.cast_le.mpr hr
  gcongr

lemma floor_div_ge_five (A : ℚ) (h : A > 1) : (5 : ℤ) ≤ ⌊A / 0.2⌋ := by
  rw [Int.le_floor]
  push_cast
  rw [le_div_iff₀ (by norm_num : (0 : ℚ) < 0.2)]
  calc (5 : ℚ) * 0.2 = 1 := by norm_num
    _ ≤ A := le_of_lt h

lemma targetNotesFor_gt_one (A : ℚ) (h : A > 1) :
    targetNotesFor A = min 8 (Int.toNat ⌊A / 0.2⌋) := by
  unfold targetNotesFor MAX_MIXING_NOTES
  rw [if_pos h]

lemma targetNotesFor_bounds (A : ℚ) : 1 ≤ targetNotesFor A ∧ targetNotesFor A ≤ 8 := by
  unfold targetNotesFor MAX_MIXING_NOTES DEFAULT_MIXING_NOTES MIN_MIXING_NOTES
  split_ifs with h1 h2 h3
  · have h5 := floor_div_ge_five A h1
    omega
  · omega
  · omega
  · omega

/-! ## Claim C6 -/

/-- C6: the note count is selected purely by amount band exactly as
claimed — a single note for `A ≤ 2·MIN_SPLIT`; `min(8, ⌊A/0.2⌋)` notes for
`A > 1` (8 notes at `A = 3`); 6 notes for `0.5 < A ≤ 1`; 4 notes for
`0.1 < A ≤ 0.5`; otherwise 2 — and at `A = 0.05` the plan has between 2
and 6 notes, each worth at least `MIN_SPLIT = 0.01` SOL. -/
theorem splitPlan_note_count_bands (sr shr : ℕ → ℚ) :
    (∀ A : ℚ, A ≤ 2 * MIN_SPLIT_AMOUNT → splitPlan A sr shr = [A]) ∧
    (∀ A : ℚ, A > 1 → (splitPlan A sr shr).length = min 8 (Int.toNat ⌊A / 0.2⌋)) ∧
    (splitPlan 3 sr shr).length = 8 ∧
    (∀ A : ℚ, 0.5 < A → A ≤ 1 → (splitPlan A sr shr).length = 6) ∧
    (∀ A : ℚ, 0.1 < A → A ≤ 0.5 → (splitPlan A sr shr).length = 4) ∧
    (∀ A : ℚ, 2 * MIN_SPLIT_AMOUNT < A → A ≤ 0.1 → (splitPlan A sr shr).length = 2) ∧
    (validDraws sr → validDraws shr →
      2 ≤ (splitPlan 0.05 sr shr).length ∧ (splitPlan 0.05 sr shr).length ≤ 6 ∧
      ∀ v ∈ splitPlan 0.05 sr shr, MIN_SPLIT_AMOUNT ≤ v) := by
  have hgt : ∀ A : ℚ, A > 1 → (splitPlan A sr shr).length = min 8 (Int.toNat ⌊A / 0.2⌋) := by
    intro A h
    unfold splitPlan
    rw [if_pos (by norm_num [MIN_SPLIT_AMOUNT]; linarith)]
    have h5 := floor_div_ge_five A h
    have hne : targetNotesFor A ≠ 0 := by
      rw [targetNotesFor_gt_one A h]
      omega
    rw [calculateSplits_length A _ sr shr hne, targetNotesFor_gt_one A h]
  refine ⟨?_, hgt, ?_, ?_, ?_, ?_, ?_⟩
  · intro A h
    unfold splitPlan
    rw [if_neg (by push_neg; linarith [h])]
  · rw [hgt 3 (by norm_num)]
    have hf : ⌊(3 : ℚ) / 0.2⌋ = 15 := by
      norm_num [Int.floor_eq_iff]
    rw [hf]
    rfl
  · intro A h1 h2
    unfold splitPlan
    rw [if_pos (by norm_num [MIN_SPLIT_AMOUNT]; linarith)]
    have ht : targetNotesFor A = 6 := by
      unfold targetNotesFor DEFAULT_MIXING_NOTES
      rw [if_neg (not_lt.mpr h2), if_pos h1]
    rw [calculateSplits_length A _ sr shr (by rw [ht]; norm_num), ht]
  · intro A h1 h2
    unfold splitPlan
    rw [if_pos (by norm_num [MIN_SPLIT_AMOUNT]; linarith)]
    have ht : targetNotesFor A = 4 := by
      unfold targetNotesFor DEFAULT_MIXING_NOTES
      rw [if_neg (not_lt.mpr (le_trans h2 (by norm_num))),
        if_neg (not_lt.mpr h2), if_pos h1]
      decide
    rw [calculateSplits_length A _ sr shr (by rw [ht]; norm_num), ht]
  · intro A h1 h2
    unfold splitPlan
    rw [if_pos (by norm_num [MIN_SPLIT_AMOUNT] at h1 ⊢; linarith)]
    have ht : targetNotesFor A = 2 := by
      unfold targetNotesFor MIN_MIXING_NOTES
      rw [if_neg (not_lt.mpr (le_trans h2 (by norm_num))),
        if_neg (not_lt.mpr (le_trans h2 (by norm_num))), if_neg (not_lt.mpr h2)]
    rw [calculateSplits_length A _ sr shr (by rw [ht]; norm_num), ht]
  · intro hsr hshr
    have ht : targetNotesFor 0.05 = 2 := by
      unfold targetNotesFor MIN_MIXING_NOTES
      rw [if_neg (by norm_num), if_neg (by norm_num), if_neg (by norm_num)]
    have hsp : splitPlan 0.05 sr shr = fisherYates shr (splitGo sr 0 1 0.05) := by
      unfold splitPlan
      rw [if_pos (by norm_num [MIN_SPLIT_AMOUNT]), ht]
      unfold calculateSplits
      rw [if_neg (by norm_num)]
    have hlen : (splitPlan 0.05 sr shr).length = 2 := by
      rw [hsp, fisherYates_length, splitGo_length]
    refine ⟨by omega, by omega, ?_⟩
    intro v hv
    rw [hsp] at hv
    have hv2 := mem_fisherYates shr hshr _ hv
    have hexp : splitGo sr 0 1 0.05 =
        [round9 (max (0.05 * (0.15 + sr 0 * 0.2)) MIN_SPLIT_AMOUNT),
         round9 (0.05 - max (0.05 * (0.15 + sr 0 * 0.2)) MIN_SPLIT_AMOUNT)] := rfl
    rw [hexp] at hv2
    have hrmin : round9 MIN_SPLIT_AMOUNT = MIN_SPLIT_AMOUNT := by
      unfold round9 MIN_SPLIT_AMOUNT
      norm_num [round_eq, Int.floor_eq_iff]
    have hsmall : 0.05 * (0.15 + sr 0 * 0.2) < 0.0175 := by
      have := (hsr 0).2
      nlinarith
    rcases List.mem_cons.mp hv2 with rfl | hv3
    · calc MIN_SPLIT_AMOUNT = round9 MIN_SPLIT_AMOUNT := hrmin.symm
        _ ≤ round9 (max (0.05 * (0.15 + sr 0 * 0.2)) MIN_SPLIT_AMOUNT) :=
          round9_mono (le_max_right _ _)
    · rcases List.mem_cons.mp hv3 with rfl | hv4
      · have hmax : max (0.05 * (0.15 + sr 0 * 0.2)) MIN_SPLIT_AMOUNT < 0.0175 :=
          max_lt hsmall (by norm_num [MIN_SPLIT_AMOUNT])
        have hr : round9 (0.0325 : ℚ) = 0.0325 := by
          unfold round9
          norm_num [round_eq, Int.floor_eq_iff]
        calc MIN_SPLIT_AMOUNT ≤ (0.0325 : ℚ) := by norm_num [MIN_SPLIT_AMOUNT]
          _ = round9 0.0325 := hr.symm
          _ ≤ round9 (0.05 - max (0.05 * (0.15 + sr 0 * 0.2)) MIN_SPLIT_AMOUNT) :=
            round9_mono (by linarith)
      · exact absurd hv4 (List.not_mem_nil v)

/-- Witness for C6: concrete draws 1/2; amount 3 gives 8 notes, and at
0.05 SOL the plan obeys the 2-to-6-notes and minimum-value bounds. -/
theorem splitPlan_note_count_bands_witness :
    (splitPlan 3 halfDraws halfDraws).length = 8 ∧
    (2 ≤ (splitPlan 0.05 halfDraws halfDraws).length ∧
     (splitPlan 0.05 halfDraws halfDraws).length ≤ 6 ∧
     ∀ v ∈ splitPlan 0.05 halfDraws halfDraws, MIN_SPLIT_AMOUNT ≤ v) :=
  ⟨(splitPlan_note_count_bands halfDraws halfDraws).2.2.1,
   (splitPlan_note_count_bands halfDraws halfDraws).2.2.2.2.2.2 validDraws_half validDraws_half⟩

/-! ## Claim C7 -/

/-- Each loop push is rounded to the lamport grid while the unrounded
value is subtracted from the remainder, so the sum drifts by at most half
a lamport per note. -/
lemma splitGo_sum_bound (sr : ℕ → ℚ) (k : ℕ) : ∀ (i : ℕ) (r : ℚ),
    |(splitGo sr i k r).sum - r| ≤ ((k : ℚ) + 1) * (1 / (2 * 10 ^ 9)) := by
  induction k with
  | zero =>
    intro i r
    have h := abs_round9_sub r
    simp only [splitGo, List.sum_cons, List.sum_nil, add_zero]
    push_cast
    linarith
  | succ k ih =>
    intro i r
    have h1 := abs_round9_sub (max (r * (0.15 + sr i * 0.2)) MIN_SPLIT_AMOUNT)
    have h2 := ih (i + 1) (r - max (r * (0.15 + sr i * 0.2)) MIN_SPLIT_AMOUNT)
    simp only [splitGo, List.sum_cons]
    set f := max (r * (0.15 + sr i * 0.2)) MIN_SPLIT_AMOUNT with hf
    set S := (splitGo sr (i + 1) k (r - f)).sum with hS
    push_cast
    have key : |round9 f + S - r| ≤ |round9 f - f| + |S - (r - f)| := by
      rw [show round9 f + S - r = (round9 f - f) + (S - (r - f)) by ring]
      exact abs_add _ _
    calc |round9 f + S - r| ≤ |round9 f - f| + |S - (r - f)| := key
      _ ≤ 1 / (2 * 10 ^ 9) + ((k : ℚ) + 1) * (1 / (2 * 10 ^ 9)) := add_le_add h1 h2
      _ = ((k : ℚ) + 1 + 1) * (1 / (2 * 10 ^ 9)) := by ring

/-- C7 amended: the note values of the split plan sum to the amount up to half
a lamport per note — at most `N/2` lamports total for an `N`-note plan,
hence at most 4 lamports (4·10⁻⁹ SOL) for the maximal 8 notes; the
1-lamport bound of the claim holds only for plans of at most 2 notes. -/
theorem splitPlan_sum_drift_bound (A : ℚ) (sr shr : ℕ → ℚ) (hshr : validDraws shr) :
    |(splitPlan A sr shr).sum - A| ≤
      ((splitPlan A sr shr).length : ℚ) * (1 / (2 * 10 ^ 9)) ∧
    (splitPlan A sr shr).length ≤ 8 ∧
    |(splitPlan A sr shr).sum - A| ≤ 4 / 10 ^ 9 := by
  have hmain : |(splitPlan A sr shr).sum - A| ≤
      ((splitPlan A sr shr).length : ℚ) * (1 / (2 * 10 ^ 9)) ∧
      (splitPlan A sr shr).length ≤ 8 := by
    unfold splitPlan
    split_ifs with hA
    · have hb := targetNotesFor_bounds A
      have hne : targetNotesFor A ≠ 0 := by omega
      rw [calculateSplits_length A _ sr shr hne]
      refine ⟨?_, hb.2⟩
      unfold calculateSplits
      rw [fisherYates_sum shr hshr, if_neg hne]
      have hbd := splitGo_sum_bound sr (targetNotesFor A - 1) 0 A
      have hcast : ((targetNotesFor A - 1 : ℕ) : ℚ) + 1 = (targetNotesFor A : ℚ) := by
        rw [Nat.cast_sub hb.1]
        ring
      rwa [hcast] at hbd
    · constructor
      · simp only [List.sum_cons, List.sum_nil, add_zero, List.length_cons,
          List.length_nil]
        norm_num
      · norm_num
  refine ⟨hmain.1, hmain.2, le_trans hmain.1 ?_⟩
  have hc : ((splitPlan A sr shr).length : ℚ) ≤ 8 := by exact_mod_cast hmain.2
  calc ((splitPlan A sr shr).length : ℚ) * (1 / (2 * 10 ^ 9)) ≤ 8 * (1 / (2 * 10 ^ 9)) := by
        gcongr
    _ = 4 / 10 ^ 9 := by norm_num

/-- Witness for the amended C7 at amount 1 SOL with constant draws 1/2. -/
theorem splitPlan_sum_drift_bound_witness :
    |(splitPlan 1 halfDraws halfDraws).sum - 1| ≤
      ((splitPlan 1 halfDraws halfDraws).length : ℚ) * (1 / (2 * 10 ^ 9)) ∧
    (splitPlan 1 halfDraws halfDraws).length ≤ 8 ∧
    |(splitPlan 1 halfDraws halfDraws).sum - 1| ≤ 4 / 10 ^ 9 :=
  splitPlan_sum_drift_bound 1 halfDraws halfDraws validDraws_half

/-- Draws that produce five loop splits each lying exactly half a lamport
above the grid, so each rounds up by half a lamport. -/
def c7sr : ℕ → ℚ := fun n =>
  if n = 0 then (0.1000000006 / 0.6) * 5 - 0.75
  else if n = 1 then (0.1000000006 / 0.4999999994) * 5 - 0.75
  else if n = 2 then (0.1000000006 / 0.3999999988) * 5 - 0.75
  else if n = 3 then (0.0900000006 / 0.2999999982) * 5 - 0.75
  else (0.0700000006 / 0.2099999976) * 5 - 0.75

/-- C7 counterexample: at amount 0.6 SOL (a 6-note plan) there are
admissible draws under which the note values sum to 0.600000002 SOL — a
drift of 2 lamports, exceeding the claimed 1-lamport bound. -/
theorem splitPlan_sum_drift_exceeds_one_lamport :
    |(splitPlan 0.6 c7sr zeroDraws).sum - 0.6| > 1 / 10 ^ 9 ∧
    (0.6 : ℚ) ≥ MIN_SWAP_AMOUNT ∧ validDraws c7sr ∧ validDraws zeroDraws := by
  refine ⟨?_, by norm_num [MIN_SWAP_AMOUNT], ?_, validDraws_zero⟩
  · norm_num [splitPlan, calculateSplits, targetNotesFor, splitGo, fisherYates,
      fisherYatesGo, swapL, round9, c7sr, zeroDraws, MIN_SPLIT_AMOUNT, MIN_MIXING_NOTES,
      DEFAULT_MIXING_NOTES, MAX_MIXING_NOTES, round_eq, Int.floor_eq_iff, max_def, abs]
  · intro n
    unfold c7sr
    split_ifs <;> norm_num

/-! ## Claim C3 -/

/-- The split plan always contains at least one note. -/
lemma splitPlan_ne_nil (A : ℚ) (sr shr : ℕ → ℚ) : splitPlan A sr shr ≠ [] := by
  unfold splitPlan
  split_ifs with h
  · have hb := targetNotesFor_bounds A
    have hlen := calculateSplits_length A (targetNotesFor A) sr shr (by omega)
    intro hnil
    rw [hnil] at hlen
    simp at hlen
    omega
  · simp

/-- C3 amended: in every successful coordinator run, steps are pushed to
an in-memory array after each confirmed transfer, but the durable swap
record receives SwapStep rows exactly once — in the single
completed-status update that is the final event of the run — never between
transfers. -/
theorem executePrivateSwapTrace_single_final_steps_write (amount : ℚ)
    (sr shr obr : ℕ → ℚ) (hopR mf : ℚ) (fwc : Bool) :
    (executePrivateSwapTrace amount sr shr obr hopR mf fwc).countP isDurableStepWrite = 1 ∧
    (executePrivateSwapTrace amount sr shr obr hopR mf fwc).getLast? =
      some (Ev.dbStepsWrite "completed"
        (2 + 3 * (splitPlan amount sr shr).length + finalHopsOf hopR)) := by
  constructor
  · simp [executePrivateSwapTrace, depositEvents, withdrawEvents, mergeEvents, hopEvents,
      finalEvents, List.countP_append, List.countP_flatMap, List.countP_cons,
      isDurableStepWrite, Function.comp_def, apply_ite (List.countP isDurableStepWrite)]
  · unfold executePrivateSwapTrace
    rw [List.getLast?_append]
    rfl

/-- C3 counterexample: on a concrete successful run (amount 0.05 SOL,
draws 1/2) the trace violates the claimed discipline that a durable step
row is appended after each confirmed transfer before the next one — the
funding transfer and the note deposit occur back to back with no durable
append between them, and all steps are persisted only at the end. -/
theorem executePrivateSwapTrace_not_promptly_persisted :
    promptPersist (executePrivateSwapTrace 0.05 halfDraws halfDraws halfDraws 0 0.001 false) =
      false ∧ validDraws halfDraws := by
  refine ⟨?_, validDraws_half⟩
  obtain ⟨s0, rest, hsp⟩ :=
    List.exists_cons_of_ne_nil (splitPlan_ne_nil 0.05 halfDraws halfDraws)
  unfold promptPersist executePrivateSwapTrace
  rw [hsp]
  rfl

end Zurix
